import Mathlib

/-!
Verification model of the NBA data-cleaning repository
(`data_cleaning.py`, `descriptive_stats.py`).

Modelling conventions for the shallow embedding:
* strings are lists of Unicode code points (`PStr`), so Python's
  ASCII-level `strip` / `title` / `upper` become `Nat`-level functions;
* a cell of a raw table is a number, a string, or the missing marker
  (`CellV.NaN`), mirroring a pandas `object` column;
* floating-point values are modelled by rationals; pandas operations
  that yield `NaN` (empty median, zero-division) return `Option`/`none`;
* a table is a list of rows; each cleaning function of the source is a
  pure function on such lists.
-/

/-! ## Strings as code-point lists, Python text primitives -/

abbrev PStr := List Nat

/-- ASCII whitespace, the characters removed by Python `str.strip`. -/
def isSpaceB (c : Nat) : Bool := decide (c = 32 ∨ c = 9 ∨ c = 10 ∨ c = 13)

/-- ASCII alphabetic character (the cased characters of our fragment). -/
def isAlphaB (c : Nat) : Bool := decide ((65 ≤ c ∧ c ≤ 90) ∨ (97 ≤ c ∧ c ≤ 122))

/-- Uppercase an ASCII code point, as Python `str.upper` does per character. -/
def toUpperN (c : Nat) : Nat := if 97 ≤ c ∧ c ≤ 122 then c - 32 else c

/-- Lowercase an ASCII code point, as Python `str.lower` does per character. -/
def toLowerN (c : Nat) : Nat := if 65 ≤ c ∧ c ≤ 90 then c + 32 else c

/-- Python `str.strip`: drop leading and trailing whitespace. -/
def pyStrip (s : PStr) : PStr :=
  (((s.dropWhile isSpaceB).reverse).dropWhile isSpaceB).reverse

/-- Python `str.title`, threading a flag that records whether the previous
character was alphabetic: an alphabetic character after a non-alphabetic
one is uppercased, an alphabetic character after an alphabetic one is
lowercased, all other characters pass through. -/
def pyTitleAux (prev : Bool) : PStr → PStr
  | [] => []
  | c :: s =>
    if isAlphaB c then
      (if prev then toLowerN c else toUpperN c) :: pyTitleAux true s
    else
      c :: pyTitleAux false s

/-- Python `str.title` on a whole string. -/
def pyTitle (s : PStr) : PStr := pyTitleAux false s

/-- Python `str.upper` on a whole string. -/
def pyUpper (s : PStr) : PStr := s.map toUpperN

/-! ## Cells and the type coercions of the source -/

/-- One cell of a raw table: a number, a string, or pandas' missing marker. -/
inductive CellV where
  | num (q : ℚ)
  | str (s : PStr)
  | NaN
deriving DecidableEq

/-- Decimal-digit test on a code point. -/
def isDigitN (c : Nat) : Bool := decide (48 ≤ c ∧ c ≤ 57)

/-- Value of a digit string read left to right. -/
def digitsToNat (s : PStr) : Nat := s.foldl (fun a c => a * 10 + (c - 48)) 0

/-- Parse an unsigned decimal literal (`"12"`, `"12.5"`, `".5"`, `"3."`). -/
def parseUnsigned (s : PStr) : Option ℚ :=
  match s.splitOn 46 with
  | [w] => if w.all isDigitN ∧ w ≠ [] then some (digitsToNat w : ℚ) else none
  | [w, f] =>
    if w.all isDigitN ∧ f.all isDigitN ∧ (w ≠ [] ∨ f ≠ []) then
      some ((digitsToNat w : ℚ) + (digitsToNat f : ℚ) / (10 : ℚ) ^ f.length)
    else none
  | _ => none

/-- Parse a decimal literal with optional sign after stripping whitespace,
the string-to-number conversion attempted by `pd.to_numeric`. -/
def parseNumQ (s : PStr) : Option ℚ :=
  match pyStrip s with
  | 45 :: rest => (parseUnsigned rest).map (fun q => -q)
  | t => parseUnsigned t

/-- Cell-wise view of `pd.to_numeric(col, errors="coerce")`: numbers pass
through, parseable strings become numbers, everything else becomes missing. -/
def toNumericCell (v : CellV) : Option ℚ :=
  match v with
  | .num q => some q
  | .str s => parseNumQ s
  | .NaN => none

/-- The numeric coercion rule as a cell-to-cell map (non-parseable values
become the missing marker, never an error). -/
def numCoerce (v : CellV) : CellV :=
  match toNumericCell v with
  | some q => .num q
  | none => .NaN

/-- The text-normalisation rule `col.str.strip().str.title()` cell-wise;
the `.str` accessor turns non-string cells into missing values. -/
def titleCoerce (v : CellV) : CellV :=
  match v with
  | .str s => .str (pyTitle (pyStrip s))
  | _ => .NaN

/-- The text-normalisation rule `col.str.strip().str.upper()` cell-wise. -/
def upperCoerce (v : CellV) : CellV :=
  match v with
  | .str s => .str (pyUpper (pyStrip s))
  | _ => .NaN

/-! ## Character-level lemmas -/

theorem toUpperN_idem (c : Nat) : toUpperN (toUpperN c) = toUpperN c := by
  unfold toUpperN; split_ifs <;> omega

theorem toLowerN_idem (c : Nat) : toLowerN (toLowerN c) = toLowerN c := by
  unfold toLowerN; split_ifs <;> omega

theorem isAlphaB_toUpperN (c : Nat) : isAlphaB (toUpperN c) = isAlphaB c := by
  unfold toUpperN isAlphaB; split_ifs with h <;> rw [decide_eq_decide] <;> omega

theorem isAlphaB_toLowerN (c : Nat) : isAlphaB (toLowerN c) = isAlphaB c := by
  unfold toLowerN isAlphaB; split_ifs with h <;> rw [decide_eq_decide] <;> omega

theorem isSpaceB_toUpperN (c : Nat) : isSpaceB (toUpperN c) = isSpaceB c := by
  unfold toUpperN isSpaceB; split_ifs with h <;> rw [decide_eq_decide] <;> omega

theorem isSpaceB_toLowerN (c : Nat) : isSpaceB (toLowerN c) = isSpaceB c := by
  unfold toLowerN isSpaceB; split_ifs with h <;> rw [decide_eq_decide] <;> omega

/-! ## Idempotence of the text primitives -/

theorem pyTitleAux_idem (s : PStr) (b : Bool) :
    pyTitleAux b (pyTitleAux b s) = pyTitleAux b s := by
  induction s generalizing b with
  | nil => rfl
  | cons c s ih =>
    by_cases hc : isAlphaB c
    · cases b <;>
        simp [pyTitleAux, hc, isAlphaB_toUpperN, isAlphaB_toLowerN, toUpperN_idem,
          toLowerN_idem, ih true]
    · simp [pyTitleAux, hc, ih false]

theorem pyUpper_idem (s : PStr) : pyUpper (pyUpper s) = pyUpper s := by
  unfold pyUpper
  rw [List.map_map]
  exact List.map_congr_left (fun c _ => toUpperN_idem c)

/-! ## Whitespace at the ends of a string -/

theorem dropWhile_eq_self_of_headq {α : Type} (p : α → Bool) (l : List α)
    (h : ∀ a, l.head? = some a → p a = false) : l.dropWhile p = l := by
  cases l with
  | nil => rfl
  | cons a l => simp [List.dropWhile_cons, h a rfl]

theorem headq_dropWhile_false {α : Type} (p : α → Bool) (l : List α) (a : α)
    (h : (l.dropWhile p).head? = some a) : p a = false := by
  induction l with
  | nil => simp [List.dropWhile] at h
  | cons b l ih =>
    by_cases hb : p b
    · rw [List.dropWhile_cons_of_pos hb] at h
      exact ih h
    · rw [List.dropWhile_cons_of_neg hb] at h
      simp only [List.head?_cons, Option.some.injEq] at h
      subst h
      exact Bool.eq_false_iff.mpr hb

theorem dropWhile_idem {α : Type} (p : α → Bool) (l : List α) :
    (l.dropWhile p).dropWhile p = l.dropWhile p :=
  dropWhile_eq_self_of_headq p _ (fun a ha => headq_dropWhile_false p l a ha)

theorem getLastq_dropWhile {α : Type} (p : α → Bool) (l : List α)
    (h : l.dropWhile p ≠ []) : (l.dropWhile p).getLast? = l.getLast? := by
  induction l with
  | nil => simp [List.dropWhile] at h
  | cons b l ih =>
    by_cases hb : p b
    · rw [List.dropWhile_cons_of_pos hb] at h ⊢
      rw [ih h]
      cases l with
      | nil => rw [List.dropWhile] at h; exact absurd rfl h
      | cons c l => rw [List.getLast?_cons_cons]
    · rw [List.dropWhile_cons_of_neg hb]

/-- The string has no leading and no trailing whitespace. -/
def noSpaceEnds (s : PStr) : Prop :=
  s.dropWhile isSpaceB = s ∧ s.reverse.dropWhile isSpaceB = s.reverse

theorem pyStrip_eq_self (s : PStr) (h : noSpaceEnds s) : pyStrip s = s := by
  unfold pyStrip
  rw [h.1, h.2, List.reverse_reverse]

theorem noSpaceEnds_pyStrip (s : PStr) : noSpaceEnds (pyStrip s) := by
  unfold pyStrip
  constructor
  · apply dropWhile_eq_self_of_headq
    intro a ha
    rw [List.head?_reverse] at ha
    by_cases hnil : ((s.dropWhile isSpaceB).reverse.dropWhile isSpaceB) = []
    · rw [hnil] at ha; simp at ha
    · rw [getLastq_dropWhile _ _ hnil, List.getLast?_reverse] at ha
      exact headq_dropWhile_false _ _ _ ha
  · rw [List.reverse_reverse]
    exact dropWhile_idem _ _

theorem dropWhile_cons_self_false {α : Type} (p : α → Bool) (a : α) (l : List α)
    (h : (a :: l).dropWhile p = a :: l) : p a = false := by
  by_cases hp : p a
  · rw [List.dropWhile_cons_of_pos hp] at h
    have hlen := congrArg List.length h
    have hle := (List.dropWhile_sublist (l := l) p).length_le
    simp at hlen
    omega
  · exact Bool.eq_false_iff.mpr hp

/-- Leading-whitespace freeness transfers along equality of the
whitespace masks of two strings. -/
theorem noLead_transfer (u v : PStr)
    (hm : u.map isSpaceB = v.map isSpaceB)
    (hv : v.dropWhile isSpaceB = v) : u.dropWhile isSpaceB = u := by
  cases u with
  | nil => rfl
  | cons a u =>
    cases v with
    | nil => simp at hm
    | cons c v =>
      simp only [List.map_cons, List.cons.injEq] at hm
      have hc : isSpaceB c = false := dropWhile_cons_self_false _ _ _ hv
      have ha : isSpaceB a = false := by rw [hm.1, hc]
      rw [List.dropWhile_cons_of_neg (by simp [ha])]

/-- Whitespace-end freeness transfers along equality of whitespace masks. -/
theorem noSpaceEnds_transfer (u v : PStr)
    (hm : u.map isSpaceB = v.map isSpaceB) (hv : noSpaceEnds v) : noSpaceEnds u := by
  constructor
  · exact noLead_transfer u v hm hv.1
  · refine noLead_transfer u.reverse v.reverse ?_ hv.2
    rw [List.map_reverse, List.map_reverse, hm]

theorem map_isSpaceB_pyTitleAux (s : PStr) (b : Bool) :
    (pyTitleAux b s).map isSpaceB = s.map isSpaceB := by
  induction s generalizing b with
  | nil => rfl
  | cons c s ih =>
    by_cases hc : isAlphaB c
    · cases b <;>
        simp [pyTitleAux, hc, isSpaceB_toUpperN, isSpaceB_toLowerN, ih true]
    · simp [pyTitleAux, hc, ih false]

theorem map_isSpaceB_pyUpper (s : PStr) :
    (pyUpper s).map isSpaceB = s.map isSpaceB := by
  unfold pyUpper
  rw [List.map_map]
  exact List.map_congr_left (fun c _ => isSpaceB_toUpperN c)

/-- Python `s.strip().title()` is idempotent. -/
theorem stripTitle_idem (s : PStr) :
    pyTitle (pyStrip (pyTitle (pyStrip s))) = pyTitle (pyStrip s) := by
  have h1 : noSpaceEnds (pyStrip s) := noSpaceEnds_pyStrip s
  have h2 : noSpaceEnds (pyTitle (pyStrip s)) :=
    noSpaceEnds_transfer _ _ (map_isSpaceB_pyTitleAux (pyStrip s) false) h1
  rw [pyStrip_eq_self _ h2]
  exact pyTitleAux_idem (pyStrip s) false

/-- Python `s.strip().upper()` is idempotent. -/
theorem stripUpper_idem (s : PStr) :
    pyUpper (pyStrip (pyUpper (pyStrip s))) = pyUpper (pyStrip s) := by
  have h1 : noSpaceEnds (pyStrip s) := noSpaceEnds_pyStrip s
  have h2 : noSpaceEnds (pyUpper (pyStrip s)) :=
    noSpaceEnds_transfer _ _ (map_isSpaceB_pyUpper (pyStrip s)) h1
  rw [pyStrip_eq_self _ h2]
  exact pyUpper_idem (pyStrip s)

/-- C9: the TypeCoercer rules of the source are idempotent: the numeric
parse (`pd.to_numeric(..., errors="coerce")`, non-parseable values become
missing) and the text normalisations (`str.strip().str.title()` and
`str.strip().str.upper()`) produce no further change when re-applied to an
already-coerced cell. -/
theorem typeCoercer_idempotent (v : CellV) :
    numCoerce (numCoerce v) = numCoerce v ∧
    titleCoerce (titleCoerce v) = titleCoerce v ∧
    upperCoerce (upperCoerce v) = upperCoerce v := by
  refine ⟨?_, ?_, ?_⟩
  · cases v with
    | num q => rfl
    | str s => cases h : parseNumQ s <;> simp [numCoerce, toNumericCell, h]
    | NaN => rfl
  · cases v with
    | num q => rfl
    | str s => simp only [titleCoerce, stripTitle_idem]
    | NaN => rfl
  · cases v with
    | num q => rfl
    | str s => simp only [upperCoerce, stripUpper_idem]
    | NaN => rfl

/-- Witness for C9 at a concrete cell: the string `" nba champs "`. -/
theorem typeCoercer_idempotent_witness :
    numCoerce (numCoerce (CellV.str [32, 110, 98, 97, 32, 99, 104, 97, 109, 112, 115, 32])) =
      numCoerce (CellV.str [32, 110, 98, 97, 32, 99, 104, 97, 109, 112, 115, 32]) ∧
    titleCoerce (titleCoerce (CellV.str [32, 110, 98, 97, 32, 99, 104, 97, 109, 112, 115, 32])) =
      titleCoerce (CellV.str [32, 110, 98, 97, 32, 99, 104, 97, 109, 112, 115, 32]) ∧
    upperCoerce (upperCoerce (CellV.str [32, 110, 98, 97, 32, 99, 104, 97, 109, 112, 115, 32])) =
      upperCoerce (CellV.str [32, 110, 98, 97, 32, 99, 104, 97, 109, 112, 115, 32]) :=
  typeCoercer_idempotent (CellV.str [32, 110, 98, 97, 32, 99, 104, 97, 109, 112, 115, 32])

/-! ## Sorting and the linear-interpolation quantile -/

/-- Insert into an ascending list (used to model sorting a column). -/
def insertAsc (x : ℚ) : List ℚ → List ℚ
  | [] => [x]
  | y :: ys => if x ≤ y then x :: y :: ys else y :: insertAsc x ys

/-- Ascending sort of a column's values. -/
def sortAsc (l : List ℚ) : List ℚ := l.foldr insertAsc []

/-- `Series.quantile(q)` with pandas' default linear interpolation:
on the sorted values `s` of length `n`, the quantile sits at position
`h = q * (n - 1)`; with `i = floor h` the result is
`s[i] + (h - i) * (s[i+1] - s[i])`.  The empty column yields `none`
(pandas returns `NaN`). -/
def quantileLin (q : ℚ) (xs : List ℚ) : Option ℚ :=
  match xs with
  | [] => none
  | _ :: _ =>
    let s := sortAsc xs
    let h : ℚ := q * ((xs.length : ℚ) - 1)
    let i : ℕ := h.floor.toNat
    let lo := s.getD i 0
    let hi := s.getD (i + 1) lo
    some (lo + (h - (i : ℚ)) * (hi - lo))

theorem quantileLin_isSome (q : ℚ) (xs : List ℚ) (h : xs ≠ []) :
    (quantileLin q xs).isSome = true := by
  cases xs with
  | nil => exact absurd rfl h
  | cons a l => rfl

/-! ## Deduplication (`DataFrame.drop_duplicates`, keep the first occurrence) -/

/-- Keep the rows not seen before; `seen` accumulates earlier rows. -/
def dropDupAux {α : Type} [DecidableEq α] (seen : List α) : List α → List α
  | [] => []
  | a :: l => if a ∈ seen then dropDupAux seen l else a :: dropDupAux (a :: seen) l

/-- `df.drop_duplicates()`: remove rows equal to an earlier row, keeping
the first occurrence and the original relative order. -/
def dropDuplicates {α : Type} [DecidableEq α] (l : List α) : List α := dropDupAux [] l

theorem dropDupAux_congr {α : Type} [DecidableEq α] (l s1 s2 : List α)
    (h : ∀ x, x ∈ s1 ↔ x ∈ s2) : dropDupAux s1 l = dropDupAux s2 l := by
  induction l generalizing s1 s2 with
  | nil => rfl
  | cons a l ih =>
    simp only [dropDupAux]
    by_cases ha : a ∈ s1
    · rw [if_pos ha, if_pos ((h a).mp ha), ih s1 s2 h]
    · rw [if_neg ha, if_neg (fun hb => ha ((h a).mpr hb)), ih (a :: s1) (a :: s2) ?_]
      intro x
      simp only [List.mem_cons, h x]

theorem dropDupAux_append {α : Type} [DecidableEq α] (l1 l2 : List α) :
    ∀ seen, dropDupAux seen (l1 ++ l2) =
      dropDupAux seen l1 ++ dropDupAux (l1 ++ seen) l2 := by
  induction l1 with
  | nil => intro seen; simp [dropDupAux]
  | cons a l1 ih =>
    intro seen
    simp only [List.cons_append, dropDupAux, List.append_eq]
    by_cases ha : a ∈ seen
    · rw [if_pos ha, if_pos ha, ih seen]
      congr 1
      apply dropDupAux_congr
      intro x
      simp only [List.mem_append, List.mem_cons]
      constructor
      · tauto
      · rintro (h1 | h1)
        · subst h1; exact Or.inr ha
        · exact h1
    · rw [if_neg ha, if_neg ha, ih (a :: seen), List.cons_append]
      congr 2
      apply dropDupAux_congr
      intro x
      simp only [List.mem_append, List.mem_cons]
      tauto

theorem dropDupAux_sublist {α : Type} [DecidableEq α] (l : List α) :
    ∀ seen, (dropDupAux seen l).Sublist l := by
  induction l with
  | nil => intro seen; simp [dropDupAux]
  | cons a l ih =>
    intro seen
    simp only [dropDupAux]
    by_cases ha : a ∈ seen
    · rw [if_pos ha]; exact (ih seen).cons a
    · rw [if_neg ha]; exact (ih (a :: seen)).cons₂ a

theorem dropDupAux_count {α : Type} [DecidableEq α] (l : List α) (r : α) :
    ∀ seen, (dropDupAux seen l).count r = if r ∈ l ∧ r ∉ seen then 1 else 0 := by
  induction l with
  | nil => intro seen; simp [dropDupAux]
  | cons a l ih =>
    intro seen
    simp only [dropDupAux]
    by_cases ha : a ∈ seen
    · rw [if_pos ha, ih seen]
      have hiff : (r ∈ l ∧ r ∉ seen) ↔ (r ∈ a :: l ∧ r ∉ seen) := by
        constructor
        · rintro ⟨h1, h2⟩; exact ⟨List.mem_cons_of_mem a h1, h2⟩
        · rintro ⟨h1, h2⟩
          rcases List.mem_cons.mp h1 with h3 | h3
          · subst h3; exact absurd ha h2
          · exact ⟨h3, h2⟩
      simp only [hiff]
    · rw [if_neg ha]
      by_cases hr : r = a
      · subst hr
        rw [List.count_cons_self, ih (r :: seen)]
        have hmem : ¬(r ∈ l ∧ r ∉ r :: seen) := by
          rintro ⟨h1, h2⟩; exact h2 (List.mem_cons_self r seen)
        rw [if_neg hmem, if_pos ⟨List.mem_cons_self r l, ha⟩]
      · rw [List.count_cons_of_ne hr, ih (a :: seen)]
        have hiff : (r ∈ l ∧ r ∉ a :: seen) ↔ (r ∈ a :: l ∧ r ∉ seen) := by
          constructor
          · rintro ⟨h1, h2⟩
            exact ⟨List.mem_cons_of_mem a h1, fun h3 => h2 (List.mem_cons_of_mem a h3)⟩
          · rintro ⟨h1, h2⟩
            rcases List.mem_cons.mp h1 with h3 | h3
            · exact absurd h3 hr
            · refine ⟨h3, fun h4 => ?_⟩
              rcases List.mem_cons.mp h4 with h5 | h5
              · exact hr h5
              · exact h2 h5
        simp only [hiff]

theorem take_indexOf_first {α : Type} [DecidableEq α] (l : List α) (r : α) (h : r ∈ l) :
    l.take (l.indexOf r + 1) = l.take (l.indexOf r) ++ [r] ∧ r ∉ l.take (l.indexOf r) := by
  induction l with
  | nil => cases h
  | cons a l ih =>
    by_cases ha : r = a
    · subst ha
      rw [List.indexOf_cons_self]
      exact ⟨rfl, List.not_mem_nil r⟩
    · have h2 : r ∈ l := by
        rcases List.mem_cons.mp h with h3 | h3
        · exact absurd h3 ha
        · exact h3
      have hidx : (a :: l).indexOf r = l.indexOf r + 1 :=
        List.indexOf_cons_ne l (fun hev => ha hev.symm)
      rcases ih h2 with ⟨ih1, ih2⟩
      rw [hidx]
      constructor
      · rw [List.take_succ_cons, List.take_succ_cons, ih1, List.cons_append]
      · rw [List.take_succ_cons]
        intro hmem
        rcases List.mem_cons.mp hmem with h3 | h3
        · exact ha h3
        · exact ih2 h3

/-- C8: Deduplicator. For every table and every row value occurring more
than once, exactly one instance survives `drop_duplicates`; the surviving
rows keep their original relative order (the output is a sublist of the
input); the surviving instance is the first occurrence: it appears
immediately after the deduplication of the segment preceding the first
occurrence, which does not contain the row. -/
theorem dropDuplicates_first_occurrence {α : Type} [DecidableEq α] (t : List α) (r : α)
    (h : 1 < t.count r) :
    (dropDuplicates t).count r = 1 ∧
    (dropDuplicates t).Sublist t ∧
    r ∉ t.take (t.indexOf r) ∧
    ∃ u, dropDuplicates t = dropDuplicates (t.take (t.indexOf r)) ++ r :: u := by
  have hm : r ∈ t := by
    by_contra hnot
    rw [List.count_eq_zero_of_not_mem hnot] at h
    omega
  rcases take_indexOf_first t r hm with ⟨h1, h2⟩
  refine ⟨?_, dropDupAux_sublist t [], h2, ?_⟩
  · rw [dropDuplicates, dropDupAux_count]
    rw [if_pos ⟨hm, List.not_mem_nil r⟩]
  · refine ⟨dropDupAux (t.take (t.indexOf r + 1) ++ []) (t.drop (t.indexOf r + 1)), ?_⟩
    have hsplit :
        dropDuplicates t =
          dropDupAux [] (t.take (t.indexOf r + 1) ++ t.drop (t.indexOf r + 1)) := by
      rw [List.take_append_drop]
      rfl
    rw [hsplit, dropDupAux_append, h1, dropDupAux_append]
    have hsingle : dropDupAux (t.take (t.indexOf r) ++ []) [r] = [r] := by
      simp only [dropDupAux]
      rw [if_neg]
      simp only [List.append_nil]
      exact h2
    rw [hsingle, List.append_assoc]
    rfl

/-- Witness for C8 on the table `[1, 2, 1]` with the duplicated row `1`. -/
theorem dropDuplicates_first_occurrence_witness :
    1 < ([1, 2, 1] : List ℕ).count 1 ∧
    (dropDuplicates ([1, 2, 1] : List ℕ)).count 1 = 1 :=
  ⟨by decide, (dropDuplicates_first_occurrence [1, 2, 1] 1 (by decide)).1⟩

/-! ## The `clean_ACTIVE_PLAYERS` pipeline -/

/-- A row of the active-players table: the two critical name columns and
the numeric columns (one `Option ℚ` per numeric column, `none` = missing). -/
structure PRow where
  first_name : Option PStr
  last_name : Option PStr
  nums : List (Option ℚ)
deriving DecidableEq

/-- Default row used with `List.getD`. -/
def emptyPRow : PRow := ⟨none, none, []⟩

/-- `df.dropna(subset=["first_name", "last_name"])`: drop the rows missing
either critical name column. -/
def dropMissingNames (t : List PRow) : List PRow :=
  t.filter (fun r => r.first_name.isSome && r.last_name.isSome)

/-- The non-missing values of numeric column `j` (pandas statistics skip
`NaN` entries). -/
def colVals (t : List PRow) (j : ℕ) : List ℚ :=
  t.filterMap (fun r => r.nums.getD j none)

/-- Fill the numeric cells of one row: cell `j0 + position` is filled,
when missing, with the median of its column in table `t`. -/
def fillRow (t : List PRow) : ℕ → List (Option ℚ) → List (Option ℚ)
  | _, [] => []
  | j, v :: vs => (v <|> quantileLin (1/2) (colVals t j)) :: fillRow t (j + 1) vs

/-- `df[numeric_cols] = df[numeric_cols].fillna(df[numeric_cols].median())`:
each numeric column's missing cells receive that column's median, computed
from the table as it stands when the fill runs; a column with no
non-missing values has median `NaN`, and filling with `NaN` leaves the
cells missing. -/
def medianFill (t : List PRow) : List PRow :=
  t.map (fun r => { r with nums := fillRow t 0 r.nums })

/-- The code points of `"Unknown"`. -/
def unknownStr : PStr := [85, 110, 107, 110, 111, 119, 110]

/-- `df[col].fillna("Unknown")` for the categorical columns. -/
def fillUnknownCat (t : List PRow) : List PRow :=
  t.map (fun r =>
    { r with first_name := some (r.first_name.getD unknownStr),
             last_name := some (r.last_name.getD unknownStr) })

/-- The IQR bounds of numeric column `j` computed from table `t`:
`Q1 - 1.5 * IQR` and `Q3 + 1.5 * IQR`; an empty column has `NaN`
quantiles, modelled as `none` bounds. -/
def colBounds (t : List PRow) (j : ℕ) : Option ℚ × Option ℚ :=
  match quantileLin (1/4) (colVals t j), quantileLin (3/4) (colVals t j) with
  | some q1, some q3 => (some (q1 - 3/2 * (q3 - q1)), some (q3 + 3/2 * (q3 - q1)))
  | _, _ => (none, none)

/-- The pandas comparison `lower <= v <= upper` used by the outlier mask:
any comparison involving `NaN` (a `none` bound or a missing value) is
false, so such rows are dropped. -/
def inBoundsB (b : Option ℚ × Option ℚ) (v : Option ℚ) : Bool :=
  match b.1, b.2, v with
  | some lb, some ub, some x => decide (lb ≤ x ∧ x ≤ ub)
  | _, _, _ => false

/-- One iteration of the outlier loop: recompute column `j`'s quantile
bounds from the current table and keep the rows inside them
(`df = df[(df[col] >= lower_bound) & (df[col] <= upper_bound)]`). -/
def outlierStep (t : List PRow) (j : ℕ) : List PRow :=
  t.filter (fun r => inBoundsB (colBounds t j) (r.nums.getD j none))

/-- The outlier-removal loop `for col in numeric_cols:` over the `k`
numeric columns, each iteration filtering the table produced by the
previous ones. -/
def outlierLoop (k : ℕ) (t : List PRow) : List PRow :=
  (List.range k).foldl outlierStep t

/-- `df[col].str.strip().str.title()` applied to the categorical columns. -/
def formatCat (t : List PRow) : List PRow :=
  t.map (fun r =>
    { r with first_name := r.first_name.map (fun s => pyTitle (pyStrip s)),
             last_name := r.last_name.map (fun s => pyTitle (pyStrip s)) })

/-- `clean_ACTIVE_PLAYERS` on a table with `k` numeric columns: drop rows
with missing names, median-fill numeric columns, fill categorical columns
with `"Unknown"`, drop duplicate rows, run the outlier loop, report the
removed-row count and percentage, and title-case the text columns.  The
result is `none` when the percentage `(before - after) / before * 100`
divides by zero (Python raises `ZeroDivisionError` at that line). -/
def clean_ACTIVE_PLAYERS (k : ℕ) (t : List PRow) : Option (List PRow × ℕ × ℚ) :=
  let t1 := dropMissingNames t
  let t2 := medianFill t1
  let t3 := fillUnknownCat t2
  let t4 := dropDuplicates t3
  let before := t4.length
  let t5 := outlierLoop k t4
  let removed := before - t5.length
  if before = 0 then none
  else some (formatCat t5, removed, (removed : ℚ) / (before : ℚ) * 100)

/-- Modelled from the spec's words (OutlierFilter, §4.5): the bounds of
ALL governed columns are computed from the table's state at stage entry,
and a row is removed iff some governed column's value lies outside that
column's entry-time bounds. -/
def outlierFilterSpecEntry (k : ℕ) (t : List PRow) : List PRow :=
  t.filter (fun r =>
    (List.range k).all (fun j => inBoundsB (colBounds t j) (r.nums.getD j none)))

/-! ## C1: outlier bounds are sequential, not entry-time -/

/-- Five-row table with two numeric columns: in column 0 the last row is
an outlier; removing it changes column 1's quartiles enough to flip the
fate of the fourth row. -/
def tblC1 : List PRow :=
  [⟨some [65], some [65], [some 10, some 0]⟩,
   ⟨some [66], some [66], [some 10, some 0]⟩,
   ⟨some [67], some [67], [some 10, some 0]⟩,
   ⟨some [68], some [68], [some 10, some 50]⟩,
   ⟨some [69], some [69], [some 100, some 100]⟩]

/-- C1 counterexample: on `tblC1` the source's outlier loop removes the
fourth row using column 1 bounds recomputed after column 0's removal,
while the spec's entry-time bounds retain it — so the removal decision
for column 1 does depend on removals triggered by column 0, and the
claimed entry-time-bounds semantics does not hold of the code. -/
theorem outlier_entry_bounds_counterexample :
    outlierLoop 2 tblC1 =
      [⟨some [65], some [65], [some 10, some 0]⟩,
       ⟨some [66], some [66], [some 10, some 0]⟩,
       ⟨some [67], some [67], [some 10, some 0]⟩] ∧
    outlierFilterSpecEntry 2 tblC1 =
      [⟨some [65], some [65], [some 10, some 0]⟩,
       ⟨some [66], some [66], [some 10, some 0]⟩,
       ⟨some [67], some [67], [some 10, some 0]⟩,
       ⟨some [68], some [68], [some 10, some 50]⟩] ∧
    outlierLoop 2 tblC1 ≠ outlierFilterSpecEntry 2 tblC1 := by
  refine ⟨by decide!, by decide!, ?_⟩
  intro h
  have h2 : (outlierLoop 2 tblC1).length = (outlierFilterSpecEntry 2 tblC1).length :=
    congrArg List.length h
  revert h2
  decide!

/-- C1 amended: the bounds of each governed column are computed from the
table's state at the moment that column is processed — that is, after the
removals triggered by the columns processed before it — and every row
retained by the whole loop lies within each column's bounds as so
computed. -/
theorem outlierLoop_sequential_bounds (k : ℕ) :
    ∀ (j : ℕ) (t : List PRow) (r : PRow), j < k → r ∈ outlierLoop k t →
      inBoundsB (colBounds (outlierLoop j t) j) (r.nums.getD j none) = true := by
  induction k with
  | zero => intro j t r hj; omega
  | succ k ih =>
    intro j t r hj hr
    have hstep : outlierLoop (k + 1) t = outlierStep (outlierLoop k t) k := by
      simp only [outlierLoop, List.range_succ, List.foldl_append, List.foldl_cons,
        List.foldl_nil]
    rw [hstep] at hr
    rcases Nat.lt_succ_iff_lt_or_eq.mp hj with h | h
    · refine ih j t r h ?_
      exact List.mem_of_mem_filter hr
    · subst h
      exact (List.mem_filter.mp hr).2

/-- The scenario column `weight = [200, 205, 210, 215, 600]`, one row per
player, with distinct names so that deduplication keeps all rows. -/
def tblC7 : List PRow :=
  [⟨some [65], some [70], [some 200]⟩,
   ⟨some [66], some [71], [some 205]⟩,
   ⟨some [67], some [72], [some 210]⟩,
   ⟨some [68], some [73], [some 215]⟩,
   ⟨some [69], some [74], [some 600]⟩]

/-- Witness for the amended C1 theorem on the weight table `tblC7`. -/
theorem outlierLoop_sequential_bounds_witness :
    (0 < 1 ∧ (⟨some [65], some [70], [some 200]⟩ : PRow) ∈ outlierLoop 1 tblC7) ∧
    inBoundsB (colBounds (outlierLoop 0 tblC7) 0)
      ((⟨some [65], some [70], [some 200]⟩ : PRow).nums.getD 0 none) = true :=
  ⟨⟨by decide, by decide!⟩,
    outlierLoop_sequential_bounds 1 0 tblC7 ⟨some [65], some [70], [some 200]⟩
      (by decide) (by decide!)⟩

/-! ## C7: the weight-column scenario -/

/-- C7: on the weight column `[200, 205, 210, 215, 600]` with `k = 1.5`
and linear-interpolation quantiles, the bounds are `[190, 230]`, the value
`600` falls outside them, exactly that one row is removed, and the report
states 1 row removed, 20 percent. -/
theorem outlier_weight_scenario :
    colBounds tblC7 0 = (some 190, some 230) ∧
    inBoundsB (colBounds tblC7 0) (some 600) = false ∧
    clean_ACTIVE_PLAYERS 1 tblC7 =
      some ([⟨some [65], some [70], [some 200]⟩,
             ⟨some [66], some [71], [some 205]⟩,
             ⟨some [67], some [72], [some 210]⟩,
             ⟨some [68], some [73], [some 215]⟩], 1, 20) := by
  refine ⟨by decide!, by decide!, by decide!⟩

/-! ## C4: the pipeline on the empty table -/

/-- C4: on the empty input table `clean_ACTIVE_PLAYERS` does not return an
empty table with a zero-rows report: the percentage expression
`(before - after) / before * 100` divides by zero (Python raises
`ZeroDivisionError`), modelled as the `none` result — for any number of
numeric columns. -/
theorem clean_ACTIVE_PLAYERS_empty (k : ℕ) : clean_ACTIVE_PLAYERS k [] = none := rfl

/-- Witness for C4 at one numeric column. -/
theorem clean_ACTIVE_PLAYERS_empty_witness : clean_ACTIVE_PLAYERS 1 [] = none :=
  clean_ACTIVE_PLAYERS_empty 1

/-! ## C5: a numeric column with zero non-missing values -/

/-- Two rows with names present and the single numeric column entirely
missing. -/
def tblC5 : List PRow :=
  [⟨some [65], some [65], [none]⟩, ⟨some [66], some [66], [none]⟩]

/-- C5: on a table whose numeric column has zero non-missing values the
run is not aborted with a data-quality error: the median fill silently
leaves the column missing, and the outlier stage's `NaN` bounds then
silently remove every row, returning a normal result and report
(2 rows removed, 100 percent). -/
theorem fill_median_all_missing_silent :
    (medianFill (dropMissingNames tblC5)).map (fun r => r.nums) = [[none], [none]] ∧
    clean_ACTIVE_PLAYERS 1 tblC5 = some ([], 2, 100) := by
  refine ⟨by decide, by decide!⟩

/-! ## C2: the fill-median statistics are computed after the row drop -/

/-- Table with three named rows (values 10, 20, missing) and one row with
a missing first name carrying the extreme value 1000. -/
def tblC2 : List PRow :=
  [⟨some [65], some [65], [some 10]⟩,
   ⟨some [66], some [66], [some 20]⟩,
   ⟨some [67], some [67], [none]⟩,
   ⟨none, some [68], [some 1000]⟩]

/-- C2 counterexample: the median of the ORIGINAL table's non-missing
values `[10, 20, 1000]` is 20, but the source drops the missing-name row
first and fills the missing cell with the post-drop median
`median [10, 20] = 15`, so the filled cell does not equal the original
median. -/
theorem fill_median_original_false :
    quantileLin (1/2) (colVals tblC2 0) = some 20 ∧
    ((medianFill (dropMissingNames tblC2)).getD 2 emptyPRow).nums.getD 0 none = some 15 ∧
    ((medianFill (dropMissingNames tblC2)).getD 2 emptyPRow).nums.getD 0 none ≠
      quantileLin (1/2) (colVals tblC2 0) := by
  refine ⟨by decide!, by decide!, by decide!⟩

theorem getD_map_of_lt {α β : Type} (f : α → β) (l : List α) (i : ℕ) (d : α) (e : β)
    (h : i < l.length) : (l.map f).getD i e = f (l.getD i d) := by
  induction l generalizing i with
  | nil => simp at h
  | cons a l ih =>
    cases i with
    | zero => rfl
    | succ i =>
      simp only [List.map_cons, List.getD_cons_succ]
      exact ih i (by simpa using h)

theorem fillRow_getD (t : List PRow) (vs : List (Option ℚ)) :
    ∀ (j0 j : ℕ), j < vs.length →
      (fillRow t j0 vs).getD j none =
        (vs.getD j none <|> quantileLin (1/2) (colVals t (j0 + j))) := by
  induction vs with
  | nil => intro j0 j h; simp at h
  | cons v vs ih =>
    intro j0 j h
    cases j with
    | zero => simp [fillRow]
    | succ j =>
      simp only [fillRow, List.getD_cons_succ]
      rw [ih (j0 + 1) j (by simpa using h)]
      have harith : j0 + 1 + j = j0 + (j + 1) := by omega
      rw [harith]

/-- C2 amended: in `clean_ACTIVE_PLAYERS` each numeric cell that is
missing after the name-based row drop is filled with the median of that
column's non-missing values as they stand AFTER the drop (not in the
original table), and when the post-drop column has at least one
non-missing value the filled column has no missing cells. -/
theorem medianFill_after_drop (t : List PRow) (i j : ℕ)
    (hi : i < (dropMissingNames t).length)
    (hj : j < ((dropMissingNames t).getD i emptyPRow).nums.length) :
    (((medianFill (dropMissingNames t)).getD i emptyPRow).nums.getD j none =
      (((dropMissingNames t).getD i emptyPRow).nums.getD j none <|>
        quantileLin (1/2) (colVals (dropMissingNames t) j))) ∧
    (colVals (dropMissingNames t) j ≠ [] →
      ((((medianFill (dropMissingNames t)).getD i emptyPRow).nums.getD j none).isSome
        = true)) := by
  have hmap :
      (medianFill (dropMissingNames t)).getD i emptyPRow =
        { (dropMissingNames t).getD i emptyPRow with
            nums := fillRow (dropMissingNames t) 0
              (((dropMissingNames t).getD i emptyPRow).nums) } := by
    simp only [medianFill]
    exact getD_map_of_lt _ _ i emptyPRow emptyPRow hi
  have hcell :
      ((medianFill (dropMissingNames t)).getD i emptyPRow).nums.getD j none =
        (((dropMissingNames t).getD i emptyPRow).nums.getD j none <|>
          quantileLin (1/2) (colVals (dropMissingNames t) j)) := by
    rw [hmap]
    have := fillRow_getD (dropMissingNames t)
      (((dropMissingNames t).getD i emptyPRow).nums) 0 j hj
    simpa using this
  refine ⟨hcell, fun hne => ?_⟩
  rw [hcell]
  cases hv : ((dropMissingNames t).getD i emptyPRow).nums.getD j none with
  | some v => simp
  | none =>
    simp only [Option.none_orElse]
    exact quantileLin_isSome _ _ hne

/-- Witness for the amended C2 theorem on `tblC2` at row 2, column 0. -/
theorem medianFill_after_drop_witness :
    (2 < (dropMissingNames tblC2).length ∧
     0 < ((dropMissingNames tblC2).getD 2 emptyPRow).nums.length) ∧
    ((medianFill (dropMissingNames tblC2)).getD 2 emptyPRow).nums.getD 0 none =
      (((dropMissingNames tblC2).getD 2 emptyPRow).nums.getD 0 none <|>
        quantileLin (1/2) (colVals (dropMissingNames tblC2) 0)) :=
  ⟨⟨by decide, by decide⟩,
    (medianFill_after_drop tblC2 2 0 (by decide) (by decide)).1⟩

/-! ## The `clean_advanced_team_stats` function -/

/-- A raw row of the advanced-team-stats file: the nine columns the
function selects plus the remaining columns of the export (`extra`). -/
structure TRawRow where
  team_name : Option PStr
  gp : CellV
  w : CellV
  l : CellV
  off_rating : CellV
  def_rating : CellV
  net_rating : CellV
  w_rank : CellV
  l_rank : CellV
  extra : List CellV
deriving DecidableEq

/-- A row after column selection (`df[existing_cols]`). -/
structure TSelRow where
  team_name : Option PStr
  gp : CellV
  w : CellV
  l : CellV
  off_rating : CellV
  def_rating : CellV
  net_rating : CellV
  w_rank : CellV
  l_rank : CellV
deriving DecidableEq

/-- Keep only the nine declared columns. -/
def selectColumns (r : TRawRow) : TSelRow :=
  ⟨r.team_name, r.gp, r.w, r.l, r.off_rating, r.def_rating, r.net_rating,
    r.w_rank, r.l_rank⟩

/-- A row after the first block's formatting: `TEAM_NAME` stripped, the six
declared numeric columns coerced, the two rank columns untouched. -/
structure TCleanRow where
  team_name : PStr
  gp : Option ℚ
  w : Option ℚ
  l : Option ℚ
  off_rating : Option ℚ
  def_rating : Option ℚ
  net_rating : Option ℚ
  w_rank : CellV
  l_rank : CellV
deriving DecidableEq

/-- The code points of `"nan"`: `astype(str)` renders a missing
`TEAM_NAME` as this string, so the later `dropna` never sees it. -/
def nanStr : PStr := [110, 97, 110]

/-- One row through the first block's formatting steps:
`TEAM_NAME.astype(str).str.strip()` and
`pd.to_numeric(col, errors="coerce")` on the six numeric columns. -/
def advancedFormatRow (r : TRawRow) : TCleanRow :=
  { team_name := pyStrip (r.team_name.getD nanStr)
    gp := toNumericCell r.gp
    w := toNumericCell r.w
    l := toNumericCell r.l
    off_rating := toNumericCell r.off_rating
    def_rating := toNumericCell r.def_rating
    net_rating := toNumericCell r.net_rating
    w_rank := r.w_rank
    l_rank := r.l_rank }

/-- `df_cleaned.dropna()`: a row survives iff none of its selected columns
is missing (the stripped `TEAM_NAME` string can no longer be missing). -/
def rowComplete (r : TCleanRow) : Bool :=
  r.gp.isSome && r.w.isSome && r.l.isSome && r.off_rating.isSome &&
    r.def_rating.isSome && r.net_rating.isSome &&
    !(decide (r.w_rank = CellV.NaN)) && !(decide (r.l_rank = CellV.NaN))

/-- The sanity check `df_cleaned = df_cleaned[df_cleaned["GP"] > 0]`;
a missing `GP` compares false. -/
def gpPositive (r : TCleanRow) : Bool :=
  match r.gp with
  | some g => decide (0 < g)
  | none => false

/-- The predicate of the rule `W + L == GP`; any missing operand makes the
pandas comparison false, so such a row counts as a violation. -/
def wlConsistent (r : TCleanRow) : Bool :=
  match r.w, r.l, r.gp with
  | some w, some l, some g => decide (w + l = g)
  | _, _, _ => false

/-- The consistency check of lines 351-358: the violation count is
computed and reported, but rows are kept (the strict filter is commented
out in the source). -/
def consistencyStage (t : List TCleanRow) : List TCleanRow × ℕ :=
  (t, t.countP (fun r => !wlConsistent r))

/-- The first block of `clean_advanced_team_stats` (select columns, strip
`TEAM_NAME`, coerce numerics, drop incomplete rows, keep `GP > 0`, count
`W + L != GP` violations): returns the cleaned table it writes to the
output file, together with the violation count. -/
def advancedBlock1 (t : List TRawRow) : List TCleanRow × ℕ :=
  let coerced := t.map advancedFormatRow
  let dropped := coerced.filter rowComplete
  let gpPos := dropped.filter gpPositive
  consistencyStage gpPos

/-- The second block of `clean_advanced_team_stats` (lines 371-399):
re-reads the raw file, performs only the column selection, and writes the
result to the same output path, overwriting the first block's file. -/
def advancedFinalOutput (t : List TRawRow) : List TSelRow :=
  t.map selectColumns

/-- `clean_advanced_team_stats` overall: the file finally on disk is the
second block's bare column selection; the first block's cleaned table and
violation count are computed, written, and then overwritten. -/
def clean_advanced_team_stats (t : List TRawRow) :
    List TSelRow × (List TCleanRow × ℕ) :=
  (advancedFinalOutput t, advancedBlock1 t)

/-! ## C3: the saved output is the uncleaned column selection -/

/-- Raw table with a whitespace-padded team name and `GP = 0` in the first
row and a missing `W` in the second. -/
def tblC3 : List TRawRow :=
  [⟨some [32, 65], CellV.num 0, CellV.num 0, CellV.num 0, CellV.num 1,
      CellV.num 1, CellV.num 0, CellV.num 5, CellV.num 6, []⟩,
   ⟨some [66], CellV.num 10, CellV.NaN, CellV.num 4, CellV.num 1,
      CellV.num 1, CellV.num 0, CellV.num 5, CellV.num 6, []⟩]

/-- C3: the table the function finally saves is the second block's bare
column selection of the raw input: on `tblC3` it retains the `GP = 0` row
with its unstripped name and the row with a missing `W`, while the first
block's cleaned table (discarded by the overwrite) removed both rows. -/
theorem advanced_team_stats_overwrite :
    (clean_advanced_team_stats tblC3).1 =
      [⟨some [32, 65], CellV.num 0, CellV.num 0, CellV.num 0, CellV.num 1,
          CellV.num 1, CellV.num 0, CellV.num 5, CellV.num 6⟩,
       ⟨some [66], CellV.num 10, CellV.NaN, CellV.num 4, CellV.num 1,
          CellV.num 1, CellV.num 0, CellV.num 5, CellV.num 6⟩] ∧
    (advancedBlock1 tblC3).1 = [] := by
  refine ⟨by decide, by decide!⟩

/-! ## C6: the warn-only consistency rule -/

/-- The scenario rows `{GP: 10, W: 6, L: 4}` and `{GP: 10, W: 7, L: 4}`
as raw rows of the advanced-team-stats file. -/
def tblC6 : List TRawRow :=
  [⟨some [65], CellV.num 10, CellV.num 6, CellV.num 4, CellV.num 1,
      CellV.num 2, CellV.num 3, CellV.num 1, CellV.num 2, []⟩,
   ⟨some [66], CellV.num 10, CellV.num 7, CellV.num 4, CellV.num 1,
      CellV.num 2, CellV.num 3, CellV.num 1, CellV.num 2, []⟩]

/-- C6: the `W + L == GP` rule is warn-only: for every table the
consistency stage returns its input unchanged and only records the
violation count; on the scenario rows the first block retains both rows
(`W = 6` and `W = 7`) and reports exactly 1 violation, the second row. -/
theorem warn_only_consistency (t : List TCleanRow) :
    (consistencyStage t).1 = t ∧
    (advancedBlock1 tblC6).1.length = 2 ∧
    (advancedBlock1 tblC6).2 = 1 ∧
    ((advancedBlock1 tblC6).1.getD 0 ⟨[], none, none, none, none, none, none,
        CellV.NaN, CellV.NaN⟩).w = some 6 ∧
    ((advancedBlock1 tblC6).1.getD 1 ⟨[], none, none, none, none, none, none,
        CellV.NaN, CellV.NaN⟩).w = some 7 := by
  refine ⟨rfl, by decide!, by decide!, by decide!, by decide!⟩

/-- Witness for C6 instantiated at the empty validator input. -/
theorem warn_only_consistency_witness :
    (consistencyStage []).1 = ([] : List TCleanRow) ∧
    (advancedBlock1 tblC6).1.length = 2 ∧
    (advancedBlock1 tblC6).2 = 1 ∧
    ((advancedBlock1 tblC6).1.getD 0 ⟨[], none, none, none, none, none, none,
        CellV.NaN, CellV.NaN⟩).w = some 6 ∧
    ((advancedBlock1 tblC6).1.getD 1 ⟨[], none, none, none, none, none, none,
        CellV.NaN, CellV.NaN⟩).w = some 7 :=
  warn_only_consistency []

/-! ## The correlation engine (`df[corr_cols].corr()`) -/

/-- Mean of a column's values. -/
def meanQ (xs : List ℚ) : ℚ := xs.sum / (xs.length : ℚ)

/-- Sum of products of deviations from the column means over row-aligned
columns: the shared numerator of Pearson's r. -/
def devProdSum (xs ys : List ℚ) : ℚ :=
  ((xs.zip ys).map (fun p => (p.1 - meanQ xs) * (p.2 - meanQ ys))).sum

/-- Sum of squared deviations of a column; the column has zero variance
iff this vanishes. -/
def varQn (xs : List ℚ) : ℚ := devProdSum xs xs

/-- One entry of the Pearson correlation matrix: the deviation-product
sum divided by the product of the standard deviations.  When either
column has zero variance the divisor is 0 and pandas produces `NaN`,
modelled as the distinguished value `none` — in particular never a real
number and never 0. -/
noncomputable def pearson (xs ys : List ℚ) : Option ℝ :=
  if varQn xs = 0 ∨ varQn ys = 0 then none
  else some ((devProdSum xs ys : ℝ) /
    (Real.sqrt ((varQn xs : ℝ)) * Real.sqrt ((varQn ys : ℝ))))

/-- The full matrix `df[corr_cols].corr()` over the ordered column list. -/
noncomputable def corrMatrix (cols : List (List ℚ)) : List (List (Option ℝ)) :=
  cols.map (fun x => cols.map (fun y => pearson x y))

/-- Entry `(i, j)` of the correlation matrix (outer `none` = out of
range). -/
noncomputable def corrEntry (cols : List (List ℚ)) (i j : ℕ) : Option (Option ℝ) :=
  ((corrMatrix cols)[i]?).bind (fun row => row[j]?)

/-- C10: in the correlation matrix of an ordered list of numeric columns,
a zero-variance column's entry with every other column is the
distinguished undefined value (`none`, pandas `NaN`), which is distinct
from `some r` for every real `r` — in particular it is not 0 — while a
pair of positive-variance columns yields the ordinary Pearson
coefficient. -/
theorem correlation_zero_variance (cols : List (List ℚ)) (i j : ℕ)
    (hi : i < cols.length) (hj : j < cols.length) (hij : i ≠ j) :
    (varQn (cols.getD i []) = 0 →
      corrEntry cols i j = some none ∧
      ∀ r : ℝ, corrEntry cols i j ≠ some (some r)) ∧
    (varQn (cols.getD i []) ≠ 0 → varQn (cols.getD j []) ≠ 0 →
      corrEntry cols i j =
        some (some ((devProdSum (cols.getD i []) (cols.getD j []) : ℝ) /
          (Real.sqrt ((varQn (cols.getD i []) : ℝ)) *
            Real.sqrt ((varQn (cols.getD j []) : ℝ)))))) := by
  have he : corrEntry cols i j = some (pearson (cols.getD i []) (cols.getD j [])) := by
    simp [corrEntry, corrMatrix, List.getElem?_eq_getElem hi,
      List.getElem?_eq_getElem hj, List.getD_eq_getElem?_getD]
  constructor
  · intro h0
    have hp : pearson (cols.getD i []) (cols.getD j []) = none := by
      unfold pearson
      rw [if_pos (Or.inl h0)]
    rw [he, hp]
    exact ⟨rfl, fun r hr => by simp at hr⟩
  · intro h1 h2
    rw [he]
    unfold pearson
    rw [if_neg (fun hor => hor.elim h1 h2)]

/-- Witness for C10: the constant column `[1, 1]` paired with `[1, 2]`
yields the undefined entry; the columns `[1, 2]` and `[2, 1]` yield an
ordinary coefficient. -/
theorem correlation_zero_variance_witness :
    varQn [(1 : ℚ), 1] = 0 ∧
    corrEntry [[(1 : ℚ), 1], [1, 2]] 0 1 = some none :=
  ⟨by decide!,
    ((correlation_zero_variance [[(1 : ℚ), 1], [1, 2]] 0 1 (by decide) (by decide)
      (by decide)).1 (by decide!)).1⟩
